import Mathlib

/-!
# AlloyX smart-contract deployment scripts: account provisioning and migrations

A shallow embedding of

* `utils/getAccount.js`  (`getAccount`, `getEthAccount`),
* `truffle-config.js`    (`start`, `awaitWrapper`),
* `migrations/4_basic_token_vault.js`.

The Node.js runtime is modelled by explicit state passing.  A process state
`Proc` holds the disk, the promise built by the running executor, the queue of
I/O requests whose callbacks have not run yet, and the trace of observable
events.  A call is run in two phases, as Node does: the promise executor runs
synchronously (`getAccountExecutor`, `getEthAccountExecutor`), then the event
loop completes the queued I/O requests and runs their callbacks (`drain`).

The libraries the scripts call are parameters of the model:

* `privateKeyToAccount` of web3 is a function `Value → Except String Account`
  (it returns an account or throws);
* one call of `accounts.create()` and the fate of the one `fs.writeFile` a call
  can issue are given by a `Chance`;
* the network a migration deploys to is a `Network`.
-/

namespace AlloyX

/-! ## Data model -/

abbrev Path := String

/-- What a path holds on disk.  `other` stands for anything `fs.existsSync`
reports as existing but `fs.readFile` cannot read (a directory, a file without
read permission). -/
inductive Entry where
  | file (content : String)
  | other
deriving DecidableEq, Repr

/-- The disk: a partial map from paths to entries. -/
abbrev FileSystem := Path → Option Entry

/-- The disk after `p` has been set to `e`. -/
def FileSystem.set (fs : FileSystem) (p : Path) (e : Entry) : FileSystem :=
  fun q => if q = p then some e else fs q

/-- A signing identity as web3 returns it (the fields the scripts use). -/
structure Account where
  address : String
  privateKey : String
deriving DecidableEq, Repr

/-- The JavaScript values that flow through the promises of these scripts. -/
inductive Value where
  | undefined
  | str (s : String)
  | account (a : Account)
deriving DecidableEq, Repr

/-- State of a JavaScript promise. -/
inductive PromiseState where
  | pending
  | fulfilled (v : Value)
  | rejected (reason : String)
deriving DecidableEq, Repr

/-- A promise is settled once it is fulfilled or rejected. -/
def PromiseState.settled : PromiseState → Bool
  | .pending => false
  | _ => true

/-- The callbacks written in `utils/getAccount.js`. -/
inductive Callback where
  /-- Lines 12-14: `(err, data) => resolve(privateKeyToAccount(data))`. -/
  | resolveDerived
  /-- Lines 18-22: `(err) => { if (err) return console.log(err) }`. -/
  | logError
  /-- Lines 33-36: `(err, data) => resolve(data)`. -/
  | resolveData
deriving DecidableEq, Repr

/-- An asynchronous I/O request handed to Node, with its completion callback. -/
inductive Request where
  | readFile (p : Path) (cb : Callback)
  | writeFile (p : Path) (data : String) (cb : Callback)
deriving DecidableEq, Repr

/-- The two contract kits of `truffle-config.js`. -/
inductive Kit where
  | kit
  | prodKit
deriving DecidableEq, Repr

/-- Observable events, in the order they happen. -/
inductive Event where
  | existsSync (p : Path) (found : Bool)
  | create (a : Account)
  | issueRead (p : Path)
  | issueWrite (p : Path) (data : String)
  | readDone (p : Path) (ok : Bool)
  | writeDone (p : Path) (ok : Bool)
  | derive (arg : Value)
  | log (msg : String)
  | addAccount (k : Kit) (key : Value)
  | uncaught (err : String)
  | unhandledRejection (err : String)
deriving DecidableEq, Repr

/-- How an `fs.writeFile` ends: the data is on disk, or the callback receives
an error; a failed write may have left a truncated file behind. -/
inductive WriteOutcome where
  | done
  | failed (err : String) (leftover : Option String)
deriving DecidableEq, Repr

/-- What is not determined by the disk in one call of `getAccount`: the
identity `accounts.create()` would generate and the fate of the write. -/
structure Chance where
  create : Account
  write : WriteOutcome
deriving DecidableEq, Repr

/-- The key derivation `web3.eth.accounts.privateKeyToAccount`: an account, or
the message of the exception it throws. -/
abbrev Derivation := Value → Except String Account

/-- A Node process, as far as these scripts can observe it. -/
structure Proc where
  fs : FileSystem
  promise : PromiseState
  queue : List Request
  trace : List Event
  crashed : Option String

/-- A process that has done nothing yet on disk `fs`. -/
def Proc.init (fs : FileSystem) : Proc :=
  { fs := fs, promise := .pending, queue := [], trace := [], crashed := none }

def Proc.emit (s : Proc) (e : Event) : Proc :=
  { s with trace := s.trace ++ [e] }

def Proc.enqueue (s : Proc) (r : Request) : Proc :=
  { s with queue := s.queue ++ [r] }

/-- The expression `new Promise(...)`: a fresh pending promise. -/
def Proc.newPromise (s : Proc) : Proc :=
  { s with promise := .pending }

/-! ## `utils/getAccount.js` -/

/-- Line 6: `path.join(__dirname, "../.secret")`, relative to the project root. -/
def filePath : Path := ".secret"

/-- Line 7: `path.join(__dirname, "../ethereum.secret")`. -/
def ethFilePath : Path := "ethereum.secret"

/-- The function `fs.existsSync`. -/
def existsSync (fs : FileSystem) (p : Path) : Bool :=
  (fs p).isSome

/-- The `(err, data)` pair `fs.readFile` passes to its callback. -/
def readFile (fs : FileSystem) (p : Path) : Option String × Value :=
  match fs p with
  | some (.file content) => (none, .str content)
  | some .other => (some "EISDIR", .undefined)
  | none => (some "ENOENT", .undefined)

/-- The disk after an `fs.writeFile` of `data` to `p`, and the `err` its
callback receives. -/
def writeFile (fs : FileSystem) (p : Path) (data : String) :
    WriteOutcome → FileSystem × Option String
  | .done => (fs.set p (.file data), none)
  | .failed err none => (fs, some err)
  | .failed err (some part) => (fs.set p (.file part), some err)

/-- The `resolve` function of a promise: it settles a pending promise and does
nothing to a settled one. -/
def resolve (v : Value) (s : Proc) : Proc :=
  match s.promise with
  | .pending => { s with promise := .fulfilled v }
  | _ => s

/-- Executor of the promise of `getAccount` (lines 10-26), run synchronously by
`new Promise`. -/
def getAccountExecutor (ch : Chance) (s : Proc) : Proc :=
  let found := existsSync s.fs filePath
  let s := s.emit (.existsSync filePath found)
  if found then
    (s.emit (.issueRead filePath)).enqueue (.readFile filePath .resolveDerived)
  else
    let randomAccount := ch.create
    let s := s.emit (.create randomAccount)
    let s := (s.emit (.issueWrite filePath randomAccount.privateKey)).enqueue
      (.writeFile filePath randomAccount.privateKey .logError)
    resolve (.account randomAccount) s

/-- Executor of the promise of `getEthAccount` (lines 31-38). -/
def getEthAccountExecutor (s : Proc) : Proc :=
  let found := existsSync s.fs ethFilePath
  let s := s.emit (.existsSync ethFilePath found)
  if found then
    (s.emit (.issueRead ethFilePath)).enqueue (.readFile ethFilePath .resolveData)
  else
    s

/-- Body of a callback, called by the event loop with `(err, data)`.  An
exception thrown here has no promise executor around it: it is uncaught and
ends the process. -/
def runCallback (pk : Derivation) (cb : Callback) (err : Option String) (data : Value)
    (s : Proc) : Proc :=
  match cb with
  | .resolveDerived =>
    let s := s.emit (.derive data)
    match pk data with
    | .ok account => resolve (.account account) s
    | .error e => { s.emit (.uncaught e) with crashed := some e }
  | .logError =>
    match err with
    | some e => s.emit (.log e)
    | none => s
  | .resolveData => resolve data s

/-- Completion of one I/O request: the operation takes effect on disk and the
callback runs.  Nothing runs in a process an uncaught exception has ended. -/
def complete (pk : Derivation) (ch : Chance) (s : Proc) (r : Request) : Proc :=
  match s.crashed with
  | some _ => s
  | none =>
    match r with
    | .readFile p cb =>
      let (err, data) := readFile s.fs p
      runCallback pk cb err data (s.emit (.readDone p err.isNone))
    | .writeFile p data cb =>
      let (fs, err) := writeFile s.fs p data ch.write
      runCallback pk cb err .undefined ({ s with fs := fs }.emit (.writeDone p err.isNone))

/-- The event loop runs until no request is left.  No callback of this file
issues a request, so one pass over the queue empties it. -/
def drain (pk : Derivation) (ch : Chance) (s : Proc) : Proc :=
  s.queue.foldl (complete pk ch) { s with queue := [] }

/-- A call of `getAccount()` in process `s`, run until the event loop is idle. -/
def getAccountFrom (pk : Derivation) (ch : Chance) (s : Proc) : Proc :=
  drain pk ch (getAccountExecutor ch s.newPromise)

/-- A call of `getAccount()` in a fresh process on disk `fs`. -/
def getAccount (pk : Derivation) (ch : Chance) (fs : FileSystem) : Proc :=
  getAccountFrom pk ch (Proc.init fs)

/-- A call of `getEthAccount()` in process `s`, run until the event loop is
idle.  The promise the `async` function returns follows the one it builds. -/
def getEthAccountFrom (pk : Derivation) (ch : Chance) (s : Proc) : Proc :=
  drain pk ch (getEthAccountExecutor s.newPromise)

/-- A call of `getEthAccount()` in a fresh process on disk `fs`. -/
def getEthAccount (pk : Derivation) (ch : Chance) (fs : FileSystem) : Proc :=
  getEthAccountFrom pk ch (Proc.init fs)

/-- Successive runs of `getAccount()`, each in a fresh process on the disk the
previous run left, each finished before the next starts. -/
def getAccountRuns (pk : Derivation) : List Chance → FileSystem → List Proc
  | [], _ => []
  | ch :: rest, fs =>
    let r := getAccount pk ch fs
    r :: getAccountRuns pk rest r.fs

/-- Whether a run issued an `fs.writeFile` on `p`. -/
def Proc.issuedWrite (s : Proc) (p : Path) : Bool :=
  s.trace.any fun e =>
    match e with
    | .issueWrite q _ => q = p
    | _ => false

/-- Whether a run completed an `fs.writeFile` on `p` without error. -/
def Proc.wrote (s : Proc) (p : Path) : Bool :=
  s.trace.any fun e =>
    match e with
    | .writeDone q ok => q = p && ok
    | _ => false

/-- Whether a run found `p` absent in `fs.existsSync`. -/
def Proc.foundAbsent (s : Proc) (p : Path) : Bool :=
  s.trace.any fun e =>
    match e with
    | .existsSync q found => q = p && !found
    | _ => false

/-- Whether a run touched `p` at all (existence check, read or write). -/
def Proc.touched (s : Proc) (p : Path) : Bool :=
  s.trace.any fun e =>
    match e with
    | .existsSync q _ => q = p
    | .issueRead q => q = p
    | .issueWrite q _ => q = p
    | _ => false

/-- Whether an event is an access to path `p`: an existence check, the issue
of a read or a write, or the completion of one. -/
def Event.onPath (p : Path) : Event → Bool
  | .existsSync q _ => q = p
  | .issueRead q => q = p
  | .issueWrite q _ => q = p
  | .readDone q _ => q = p
  | .writeDone q _ => q = p
  | _ => false

/-- Whether an event can only come from `awaitWrapper`: an access to the
primary secret path, the generation or derivation of an identity, the log of
the address or the addition of a key to a kit. -/
def Event.ofAwaitWrapper : Event → Bool
  | .create _ => true
  | .derive _ => true
  | .log _ => true
  | .addAccount _ _ => true
  | e => e.onPath filePath

/-! ## `truffle-config.js` -/

/-- Module state of `truffle-config.js`: the process, the variable
`ethPrivateKey` (line 16) and the keys added to the two kits so far. -/
structure Module where
  proc : Proc
  ethPrivateKey : Value
  kit : List Value
  prodKit : List Value

/-- The module when `start()` is called at line 30, on disk `fs`. -/
def Module.init (fs : FileSystem) : Module :=
  { proc := Proc.init fs, ethPrivateKey := .undefined, kit := [], prodKit := [] }

/-- Property access `v.address`. -/
def Value.getAddress : Value → Except String Value
  | .account a => .ok (.str a.address)
  | .str _ => .ok .undefined
  | .undefined => .error "TypeError: Cannot read properties of undefined"

/-- Property access `v.privateKey`. -/
def Value.getPrivateKey : Value → Except String Value
  | .account a => .ok (.str a.privateKey)
  | .str _ => .ok .undefined
  | .undefined => .error "TypeError: Cannot read properties of undefined"

/-- String conversion inside a template literal. -/
def Value.render : Value → String
  | .str s => s
  | .undefined => "undefined"
  | .account _ => "[object Object]"

/-- Lines 25-27 of `awaitWrapper`, the part after `await getAccount()`, run
with the value the promise was fulfilled with. -/
def awaitWrapperRest (account : Value) (m : Module) : Module :=
  match account.getAddress, account.getPrivateKey with
  | .ok address, .ok privateKey =>
    let p := m.proc.emit (.log ("Celo Account address: " ++ address.render))
    let p := p.emit (.addAccount .kit privateKey)
    let p := p.emit (.addAccount .prodKit privateKey)
    { m with proc := p, kit := m.kit ++ [privateKey], prodKit := m.prodKit ++ [privateKey] }
  | .error e, _ => { m with proc := m.proc.emit (.unhandledRejection e) }
  | _, .error e => { m with proc := m.proc.emit (.unhandledRejection e) }

/-- The function `awaitWrapper` (lines 23-28).  The part after the `await` runs
in the microtask that follows the synchronous block fulfilling the promise:
right after the executor when it resolved at once, after the callback of the
read otherwise, and never while the promise is pending. -/
def awaitWrapper (pk : Derivation) (ch : Chance) (m : Module) : Module :=
  let s := getAccountExecutor ch m.proc.newPromise
  match s.promise with
  | .fulfilled account =>
    let m := awaitWrapperRest account { m with proc := s }
    { m with proc := drain pk ch m.proc }
  | _ =>
    let s := drain pk ch s
    match s.promise with
    | .fulfilled account => awaitWrapperRest account { m with proc := s }
    | _ => { m with proc := s }

/-- The function `start` (lines 17-21): the assignment to `ethPrivateKey` and
the call of `awaitWrapper` run once the promise of `getEthAccount()` is
fulfilled. -/
def start (pk : Derivation) (ch : Chance) (m : Module) : Module :=
  let s := getEthAccountFrom pk ch m.proc
  match s.promise with
  | .fulfilled v => awaitWrapper pk ch { m with proc := s, ethPrivateKey := v }
  | _ => { m with proc := s }

/-! ## `migrations/4_basic_token_vault.js` -/

/-- One deployment request: the contract and its constructor arguments. -/
structure Deployment where
  contract : String
  args : List String
deriving DecidableEq, Repr

/-- The network as the deployer sees it: the address at which a deployment
lands, given the deployments issued before it, or the error it fails with. -/
abbrev Network := List Deployment → Deployment → Except String String

/-- State of the Truffle deployer and artifacts: the deployments issued so far
and, per contract, the address of its deployed instance. -/
structure Deployer where
  issued : List Deployment
  address : String → Option String

/-- Line 1: `artifacts.require("BondToken.sol")`. -/
def SimpleToken : String := "BondToken"

/-- Line 2: `artifacts.require("TokenVault")`. -/
def TokenReceiver : String := "TokenVault"

/-- The call `deployer.deploy(contract, ...args)`, awaited: the request is
issued; when it succeeds the artifact records the new address. -/
def Deployer.deploy (net : Network) (d : Deployer) (contract : String) (args : List String) :
    Deployer × Except String String :=
  let request : Deployment := { contract := contract, args := args }
  let d1 : Deployer := { d with issued := d.issued ++ [request] }
  match net d.issued request with
  | .ok addr =>
    ({ d1 with address := fun c => if c = contract then some addr else d.address c }, .ok addr)
  | .error e => (d1, .error e)

/-- The call `contract.deployed()`, awaited: the address of the instance the
artifact records, or an error when there is none. -/
def Deployer.deployed (d : Deployer) (contract : String) : Except String String :=
  match d.address contract with
  | some addr => .ok addr
  | none => .error (contract ++ " has not been deployed to detected network")

/-- The migration function (lines 4-8). -/
def migration4 (net : Network) (d : Deployer) : Deployer × Except String Unit :=
  match d.deploy net SimpleToken [] with
  | (d, .error e) => (d, .error e)
  | (d, .ok _) =>
    match d.deployed SimpleToken with
    | .error e => (d, .error e)
    | .ok tokenAddress =>
      match d.deploy net TokenReceiver [tokenAddress] with
      | (d, .error e) => (d, .error e)
      | (d, .ok _) => (d, .ok ())

/-! ## Sample inputs -/

/-- A disk given by the list of its entries. -/
def diskOf (entries : List (Path × Entry)) : FileSystem :=
  fun p => entries.lookup p

/-- The private key made of the byte `0x01` thirty-two times. -/
def onesKey : String :=
  "0x0101010101010101010101010101010101010101010101010101010101010101"

/-- A stand-in for the key derivation with the input check of web3 (a string
of 66 characters) and a symbolic address. -/
def sampleDerivation : Derivation
  | .str s =>
    if s.length = 66 then .ok { address := "address-of-" ++ s, privateKey := s }
    else .error "Private key must be 32 bytes long"
  | _ => .error "TypeError: privateKey.startsWith is not a function"

/-- The identity `sampleDerivation` gives for `onesKey`. -/
def onesAccount : Account :=
  { address := "address-of-" ++ onesKey, privateKey := onesKey }

/-- A generated identity whose write succeeds. -/
def luckyChance : Chance :=
  { create := onesAccount, write := .done }

/-- A generated identity whose write fails and leaves nothing on disk. -/
def deniedChance : Chance :=
  { create := { address := "0xA", privateKey := "0xa" },
    write := .failed "EACCES: permission denied" none }

/-- A network on which every deployment succeeds, at an address made of the
contract name and the number of earlier deployments. -/
def sampleNetwork : Network :=
  fun earlier d => .ok (d.contract ++ "@" ++ toString earlier.length)

/-- A network on which every deployment fails. -/
def deadNetwork : Network :=
  fun _ _ => .error "connection refused"

/-- A deployer that has deployed nothing. -/
def Deployer.init : Deployer :=
  { issued := [], address := fun _ => none }

end AlloyX

namespace AlloyX

/-! ## One call of `getAccount()` -/

/-- An existing, readable secret file whose content the derivation accepts:
the whole run in closed form. -/
theorem getAccountFrom_file_ok (pk : Derivation) (ch : Chance) (s : Proc) (d : String)
    (a : Account) (hq : s.queue = []) (hc : s.crashed = none)
    (hfile : s.fs filePath = some (.file d)) (hpk : pk (.str d) = .ok a) :
    getAccountFrom pk ch s =
      { fs := s.fs, promise := .fulfilled (.account a), queue := [], crashed := none,
        trace := s.trace ++ [.existsSync filePath true, .issueRead filePath,
          .readDone filePath true, .derive (.str d)] } := by
  simp [getAccountFrom, getAccountExecutor, drain, complete, runCallback, readFile, resolve,
    Proc.emit, Proc.enqueue, Proc.newPromise, existsSync, hfile, hpk, hq, hc]

/-- An existing, readable secret file whose content the derivation refuses. -/
theorem getAccountFrom_file_error (pk : Derivation) (ch : Chance) (s : Proc) (d e : String)
    (hq : s.queue = []) (hc : s.crashed = none)
    (hfile : s.fs filePath = some (.file d)) (hpk : pk (.str d) = .error e) :
    getAccountFrom pk ch s =
      { fs := s.fs, promise := .pending, queue := [], crashed := some e,
        trace := s.trace ++ [.existsSync filePath true, .issueRead filePath,
          .readDone filePath true, .derive (.str d), .uncaught e] } := by
  simp [getAccountFrom, getAccountExecutor, drain, complete, runCallback, readFile, resolve,
    Proc.emit, Proc.enqueue, Proc.newPromise, existsSync, hfile, hpk, hq, hc]

/-- Whatever the path holds, a run that finds it leaves the disk alone and
issues no write. -/
theorem getAccountFrom_present (pk : Derivation) (ch : Chance) (s : Proc) (e : Entry)
    (hq : s.queue = []) (hc : s.crashed = none) (hfile : s.fs filePath = some e) :
    (getAccountFrom pk ch s).fs = s.fs ∧
      ∃ tail, (getAccountFrom pk ch s).trace =
        s.trace ++ [.existsSync filePath true, .issueRead filePath,
          .readDone filePath (readFile s.fs filePath).1.isNone,
          .derive (readFile s.fs filePath).2] ++ tail ∧
        (tail = [] ∨ ∃ err, tail = [.uncaught err]) := by
  cases e with
  | file d =>
    cases hpk : pk (.str d) with
    | ok a =>
      rw [getAccountFrom_file_ok pk ch s d a hq hc hfile hpk]
      exact ⟨rfl, [], by simp [readFile, hfile], Or.inl rfl⟩
    | error err =>
      rw [getAccountFrom_file_error pk ch s d err hq hc hfile hpk]
      exact ⟨rfl, [.uncaught err], by simp [readFile, hfile], Or.inr ⟨err, rfl⟩⟩
  | other =>
    cases hpk : pk .undefined with
    | ok a =>
      refine ⟨?_, [], ?_, Or.inl rfl⟩ <;>
      simp [getAccountFrom, getAccountExecutor, drain, complete, runCallback, readFile, resolve,
        Proc.emit, Proc.enqueue, Proc.newPromise, existsSync, hfile, hpk, hq, hc]
    | error err =>
      refine ⟨?_, [.uncaught err], ?_, Or.inr ⟨err, rfl⟩⟩ <;>
      simp [getAccountFrom, getAccountExecutor, drain, complete, runCallback, readFile, resolve,
        Proc.emit, Proc.enqueue, Proc.newPromise, existsSync, hfile, hpk, hq, hc]

/-- No secret file: the run in closed form.  The promise is the generated
identity; the disk and the last events are those of the write. -/
theorem getAccountFrom_absent (pk : Derivation) (ch : Chance) (s : Proc)
    (hq : s.queue = []) (hc : s.crashed = none) (habs : s.fs filePath = none) :
    getAccountFrom pk ch s =
      { fs := (writeFile s.fs filePath ch.create.privateKey ch.write).1,
        promise := .fulfilled (.account ch.create), queue := [], crashed := none,
        trace := s.trace ++ [.existsSync filePath false, .create ch.create,
            .issueWrite filePath ch.create.privateKey,
            .writeDone filePath (writeFile s.fs filePath ch.create.privateKey ch.write).2.isNone]
          ++ (match (writeFile s.fs filePath ch.create.privateKey ch.write).2 with
              | some err => [.log err]
              | none => []) } := by
  cases hw : ch.write with
  | done =>
    simp [getAccountFrom, getAccountExecutor, drain, complete, runCallback, writeFile, resolve,
      Proc.emit, Proc.enqueue, Proc.newPromise, existsSync, habs, hw, hq, hc]
  | failed err lo =>
    cases lo <;>
    simp [getAccountFrom, getAccountExecutor, drain, complete, runCallback, writeFile, resolve,
      Proc.emit, Proc.enqueue, Proc.newPromise, existsSync, habs, hw, hq, hc]

end AlloyX

namespace AlloyX

/-- C1: when the secret file exists and is read with content `d`, and the key
derivation gives the identity `a` for `d`, `getAccount()` resolves with exactly
`a`; the derivation is applied to the whole content, nothing is written, and
the disk is left as it was.  For the key `0x01` × 32 this is the instance
`d = onesKey`. -/
theorem getAccount_existing_file_resolves_with_derived (pk : Derivation) (ch : Chance)
    (fs : FileSystem) (d : String) (a : Account)
    (hfile : fs filePath = some (.file d)) (hpk : pk (.str d) = .ok a) :
    (getAccount pk ch fs).promise = .fulfilled (.account a) ∧
      (getAccount pk ch fs).trace = [.existsSync filePath true, .issueRead filePath,
        .readDone filePath true, .derive (.str d)] ∧
      (getAccount pk ch fs).fs = fs := by
  have h : getAccount pk ch fs = _ :=
    getAccountFrom_file_ok pk ch (Proc.init fs) d a rfl rfl hfile hpk
  rw [h]
  exact ⟨rfl, rfl, rfl⟩

theorem getAccount_existing_file_resolves_with_derived_witness :
    diskOf [(filePath, .file onesKey)] filePath = some (.file onesKey) ∧
      sampleDerivation (.str onesKey) = .ok onesAccount ∧
      (getAccount sampleDerivation deniedChance (diskOf [(filePath, .file onesKey)])).promise =
        .fulfilled (.account onesAccount) :=
  ⟨rfl, rfl,
    (getAccount_existing_file_resolves_with_derived sampleDerivation deniedChance
      (diskOf [(filePath, .file onesKey)]) onesKey onesAccount rfl rfl).1⟩

/-- C2: when the secret file does not exist, `getAccount()` generates an
identity `r` with `accounts.create()`, resolves with that `r`, and issues one
write of `r.privateKey` to `filePath`; when the write succeeds the file holds
exactly `r.privateKey` afterwards and no other path has changed. -/
theorem getAccount_absent_file_creates_and_persists (pk : Derivation) (ch : Chance)
    (fs : FileSystem) (habs : fs filePath = none) :
    (getAccount pk ch fs).promise = .fulfilled (.account ch.create) ∧
      (getAccount pk ch fs).trace.take 3 = [.existsSync filePath false, .create ch.create,
        .issueWrite filePath ch.create.privateKey] ∧
      (ch.write = .done →
        (getAccount pk ch fs).fs = fs.set filePath (.file ch.create.privateKey) ∧
        (getAccount pk ch fs).fs filePath = some (.file ch.create.privateKey)) := by
  have h : getAccount pk ch fs = _ := getAccountFrom_absent pk ch (Proc.init fs) rfl rfl habs
  rw [h]
  refine ⟨rfl, by simp [Proc.init], ?_⟩
  intro hw
  simp [hw, writeFile, Proc.init, FileSystem.set]

theorem getAccount_absent_file_creates_and_persists_witness :
    diskOf [] filePath = none ∧ luckyChance.write = .done ∧
      (getAccount sampleDerivation luckyChance (diskOf [])).promise =
        .fulfilled (.account onesAccount) ∧
      (getAccount sampleDerivation luckyChance (diskOf [])).fs filePath =
        some (.file onesKey) :=
  ⟨rfl, rfl,
    (getAccount_absent_file_creates_and_persists sampleDerivation luckyChance (diskOf []) rfl).1,
    ((getAccount_absent_file_creates_and_persists sampleDerivation luckyChance (diskOf [])
      rfl).2.2 rfl).2⟩

/-- C3: round trip.  From a disk without the secret file, if the first
`getAccount()` returns `I1` and its write succeeds, a second `getAccount()` on
the disk the first one left returns `I1` again, provided the derivation applied
to the private key of `I1` gives `I1`. -/
theorem getAccount_round_trip (pk : Derivation) (ch1 ch2 : Chance) (fs : FileSystem)
    (habs : fs filePath = none) (hw : ch1.write = .done)
    (hpk : pk (.str ch1.create.privateKey) = .ok ch1.create) :
    (getAccount pk ch1 fs).promise = .fulfilled (.account ch1.create) ∧
      (getAccount pk ch2 (getAccount pk ch1 fs).fs).promise =
        .fulfilled (.account ch1.create) := by
  have h1 : getAccount pk ch1 fs = _ :=
    getAccountFrom_absent pk ch1 (Proc.init fs) rfl rfl habs
  have hfs : (getAccount pk ch1 fs).fs filePath = some (.file ch1.create.privateKey) := by
    rw [h1]
    simp [hw, writeFile, FileSystem.set]
  have h2 : getAccount pk ch2 (getAccount pk ch1 fs).fs = _ :=
    getAccountFrom_file_ok pk ch2 (Proc.init (getAccount pk ch1 fs).fs)
      ch1.create.privateKey ch1.create rfl rfl hfs hpk
  refine ⟨by rw [h1], ?_⟩
  rw [h2]

theorem getAccount_round_trip_witness :
    (getAccount sampleDerivation luckyChance (diskOf [])).promise =
        .fulfilled (.account onesAccount) ∧
      (getAccount sampleDerivation deniedChance
        (getAccount sampleDerivation luckyChance (diskOf [])).fs).promise =
        .fulfilled (.account onesAccount) :=
  getAccount_round_trip sampleDerivation luckyChance deniedChance (diskOf []) rfl rfl rfl

/-- C5, as the code behaves: when the key derivation throws on the content of
the secret file, the exception leaves the read callback uncaught; the promise
of `getAccount()` is neither resolved with an identity nor rejected, it stays
pending with no request left that could settle it. -/
theorem getAccount_invalid_key_never_settles (pk : Derivation) (ch : Chance)
    (fs : FileSystem) (d e : String)
    (hfile : fs filePath = some (.file d)) (hpk : pk (.str d) = .error e) :
    (getAccount pk ch fs).promise = .pending ∧
      (getAccount pk ch fs).queue = [] ∧
      (getAccount pk ch fs).crashed = some e ∧
      Event.uncaught e ∈ (getAccount pk ch fs).trace ∧
      (getAccount pk ch fs).fs = fs := by
  have h : getAccount pk ch fs = _ :=
    getAccountFrom_file_error pk ch (Proc.init fs) d e rfl rfl hfile hpk
  rw [h]
  exact ⟨rfl, rfl, rfl, by simp, rfl⟩

theorem getAccount_invalid_key_never_settles_witness :
    (getAccount sampleDerivation luckyChance (diskOf [(filePath, .file "zz")])).promise =
        .pending ∧
      (getAccount sampleDerivation luckyChance (diskOf [(filePath, .file "zz")])).crashed =
        some "Private key must be 32 bytes long" :=
  have h := getAccount_invalid_key_never_settles sampleDerivation luckyChance
    (diskOf [(filePath, .file "zz")]) "zz" "Private key must be 32 bytes long" rfl rfl
  ⟨h.1, h.2.2.1⟩

/-- C5 as stated fails: with an empty secret file, which the derivation
refuses, the promise of `getAccount()` is not rejected; it is still pending
once the event loop is idle. -/
theorem getAccount_invalid_key_not_rejected :
    sampleDerivation (.str "") = .error "Private key must be 32 bytes long" ∧
      (getAccount sampleDerivation luckyChance (diskOf [(filePath, .file "")])).queue = [] ∧
      (getAccount sampleDerivation luckyChance
        (diskOf [(filePath, .file "")])).promise.settled = false ∧
      ¬ ∃ reason, (getAccount sampleDerivation luckyChance
        (diskOf [(filePath, .file "")])).promise = .rejected reason := by
  refine ⟨rfl, by decide, by decide, ?_⟩
  rintro ⟨reason, h⟩
  have hp : (getAccount sampleDerivation luckyChance
      (diskOf [(filePath, .file "")])).promise = .pending := by decide
  rw [hp] at h
  cases h

/-- C6: when the secret file is absent, `getAccount()` resolves with the
generated identity whatever the outcome of the write: the promise is already
fulfilled when the executor returns, before the write completes, and the
completion of the write neither changes its value nor rejects it nor ends the
process. -/
theorem getAccount_write_failure_non_fatal (pk : Derivation) (r : Account)
    (w : WriteOutcome) (fs : FileSystem) (habs : fs filePath = none) :
    (getAccountExecutor ⟨r, w⟩ (Proc.init fs)).promise = .fulfilled (.account r) ∧
      (getAccount pk ⟨r, w⟩ fs).promise = .fulfilled (.account r) ∧
      (getAccount pk ⟨r, w⟩ fs).crashed = none ∧
      (∀ err leftover, w = .failed err leftover →
        Event.log err ∈ (getAccount pk ⟨r, w⟩ fs).trace) := by
  have h : getAccount pk ⟨r, w⟩ fs = _ :=
    getAccountFrom_absent pk ⟨r, w⟩ (Proc.init fs) rfl rfl habs
  rw [h]
  refine ⟨?_, rfl, rfl, ?_⟩
  · simp [getAccountExecutor, resolve, Proc.emit, Proc.enqueue, Proc.init, existsSync, habs]
  · intro err leftover hw
    cases leftover <;> simp [hw, writeFile]

theorem getAccount_write_failure_non_fatal_witness :
    (getAccount sampleDerivation deniedChance (diskOf [])).promise =
        .fulfilled (.account deniedChance.create) ∧
      (getAccount sampleDerivation luckyChance (diskOf [])).promise =
        .fulfilled (.account luckyChance.create) :=
  ⟨(getAccount_write_failure_non_fatal sampleDerivation deniedChance.create
      deniedChance.write (diskOf []) rfl).2.1,
    (getAccount_write_failure_non_fatal sampleDerivation luckyChance.create
      luckyChance.write (diskOf []) rfl).2.1⟩

/-- C7: when the secret file exists with content the derivation accepts, two
`getAccount()` calls, run one after the other or both from the same disk,
return identities with the same address, whatever identities the random
generator would have produced. -/
theorem getAccount_deterministic_on_existing_file (pk : Derivation) (ch1 ch2 : Chance)
    (fs : FileSystem) (d : String) (a : Account)
    (hfile : fs filePath = some (.file d)) (hpk : pk (.str d) = .ok a) :
    ∃ a1 a2 a3,
      (getAccount pk ch1 fs).promise = .fulfilled (.account a1) ∧
      (getAccount pk ch2 (getAccount pk ch1 fs).fs).promise = .fulfilled (.account a2) ∧
      (getAccount pk ch2 fs).promise = .fulfilled (.account a3) ∧
      a1.address = a2.address ∧ a1.address = a3.address := by
  have h1 : getAccount pk ch1 fs = _ :=
    getAccountFrom_file_ok pk ch1 (Proc.init fs) d a rfl rfl hfile hpk
  have h3 : getAccount pk ch2 fs = _ :=
    getAccountFrom_file_ok pk ch2 (Proc.init fs) d a rfl rfl hfile hpk
  have hfs : (getAccount pk ch1 fs).fs = fs := by rw [h1]; rfl
  refine ⟨a, a, a, ?_, ?_, ?_, rfl, rfl⟩
  · rw [h1]
  · rw [hfs, h3]
  · rw [h3]

theorem getAccount_deterministic_on_existing_file_witness :
    ∃ a1 a2 a3,
      (getAccount sampleDerivation luckyChance
        (diskOf [(filePath, .file onesKey)])).promise = .fulfilled (.account a1) ∧
      (getAccount sampleDerivation deniedChance (getAccount sampleDerivation luckyChance
        (diskOf [(filePath, .file onesKey)])).fs).promise = .fulfilled (.account a2) ∧
      (getAccount sampleDerivation deniedChance
        (diskOf [(filePath, .file onesKey)])).promise = .fulfilled (.account a3) ∧
      a1.address = a2.address ∧ a1.address = a3.address :=
  getAccount_deterministic_on_existing_file sampleDerivation luckyChance deniedChance
    (diskOf [(filePath, .file onesKey)]) onesKey onesAccount rfl rfl

end AlloyX

namespace AlloyX

/-! ## Successive runs of `getAccount()` -/

/-- A run that finds the secret path occupied: same disk, no write issued or
completed, and the path was not found absent. -/
theorem getAccount_present_facts (pk : Derivation) (ch : Chance) (fs : FileSystem)
    (hfile : fs filePath ≠ none) :
    (getAccount pk ch fs).fs = fs ∧
      (getAccount pk ch fs).issuedWrite filePath = false ∧
      (getAccount pk ch fs).wrote filePath = false ∧
      (getAccount pk ch fs).foundAbsent filePath = false := by
  obtain ⟨e, he⟩ := Option.ne_none_iff_exists'.mp hfile
  obtain ⟨hfs, tail, htr, htail⟩ := getAccountFrom_present pk ch (Proc.init fs) e rfl rfl he
  refine ⟨hfs, ?_, ?_, ?_⟩ <;>
  · simp only [Proc.issuedWrite, Proc.wrote, Proc.foundAbsent, getAccount, htr]
    rcases htail with h | ⟨err, h⟩ <;> simp [h, Proc.init]

/-- A run that finds the secret path free: it found it absent, issued a write,
and the write completed without error exactly when the outcome is `done`; the
path is occupied afterwards in that case. -/
theorem getAccount_absent_facts (pk : Derivation) (ch : Chance) (fs : FileSystem)
    (habs : fs filePath = none) :
    (getAccount pk ch fs).issuedWrite filePath = true ∧
      (getAccount pk ch fs).foundAbsent filePath = true ∧
      ((getAccount pk ch fs).wrote filePath = true ↔ ch.write = .done) ∧
      (ch.write = .done → (getAccount pk ch fs).fs filePath ≠ none) := by
  have h : getAccount pk ch fs = _ := getAccountFrom_absent pk ch (Proc.init fs) rfl rfl habs
  rw [h]
  cases hw : ch.write with
  | done => simp [Proc.issuedWrite, Proc.wrote, Proc.foundAbsent, Proc.init, writeFile,
      FileSystem.set]
  | failed err lo =>
    cases lo <;>
    simp [Proc.issuedWrite, Proc.wrote, Proc.foundAbsent, Proc.init, writeFile]

/-- Once the secret path is occupied, every later run leaves the disk alone,
issues no write and does not find the path absent. -/
theorem getAccountRuns_present (pk : Derivation) (chs : List Chance) (fs : FileSystem)
    (hfile : fs filePath ≠ none) :
    ∀ r ∈ getAccountRuns pk chs fs,
      r.fs = fs ∧ r.issuedWrite filePath = false ∧ r.wrote filePath = false ∧
        r.foundAbsent filePath = false := by
  induction chs with
  | nil => intro r hr; simp [getAccountRuns] at hr
  | cons ch rest ih =>
    intro r hr
    have hf := getAccount_present_facts pk ch fs hfile
    simp only [getAccountRuns, List.mem_cons] at hr
    rcases hr with rfl | hr
    · exact hf
    · rw [hf.1] at hr
      exact ih r hr

/-- Counting over runs from an occupied path gives zero for any of the three
observations. -/
theorem getAccountRuns_present_counts (pk : Derivation) (chs : List Chance) (fs : FileSystem)
    (hfile : fs filePath ≠ none) :
    (getAccountRuns pk chs fs).countP (fun r => r.issuedWrite filePath) = 0 ∧
      (getAccountRuns pk chs fs).countP (fun r => r.wrote filePath) = 0 ∧
      (getAccountRuns pk chs fs).countP (fun r => r.foundAbsent filePath) = 0 := by
  have h := getAccountRuns_present pk chs fs hfile
  refine ⟨?_, ?_, ?_⟩ <;>
  · rw [List.countP_eq_zero]
    intro r hr
    simp [(h r hr).2.1, (h r hr).2.2.1, (h r hr).2.2.2]

/-- In any sequence of runs at most one write completes without error. -/
theorem getAccountRuns_wrote_le_one (pk : Derivation) (chs : List Chance) :
    ∀ fs, (getAccountRuns pk chs fs).countP (fun r => r.wrote filePath) ≤ 1 := by
  induction chs with
  | nil => intro fs; simp [getAccountRuns]
  | cons ch rest ih =>
    intro fs
    by_cases hfile : fs filePath = none
    · have hf := getAccount_absent_facts pk ch fs hfile
      simp only [getAccountRuns, List.countP_cons]
      by_cases hw : ch.write = .done
      · have h0 := (getAccountRuns_present_counts pk rest _ (hf.2.2.2 hw)).2.1
        rw [h0]
        split <;> simp
      · have hn : ¬ (getAccount pk ch fs).wrote filePath = true := fun h => hw (hf.2.2.1.mp h)
        simp only [hn, if_false, Nat.add_zero, Bool.false_eq_true]
        exact ih _
    · rw [(getAccountRuns_present_counts pk (ch :: rest) fs hfile).2.1]
      exact Nat.zero_le 1

/-- When no write fails, at most one run finds the path absent and at most one
issues a write. -/
theorem getAccountRuns_no_failure (pk : Derivation) (chs : List Chance) :
    ∀ fs, (∀ ch ∈ chs, ch.write = .done) →
      (getAccountRuns pk chs fs).countP (fun r => r.issuedWrite filePath) ≤ 1 ∧
        (getAccountRuns pk chs fs).countP (fun r => r.foundAbsent filePath) ≤ 1 := by
  intro fs hall
  cases chs with
  | nil => simp [getAccountRuns]
  | cons ch rest =>
    by_cases hfile : fs filePath = none
    · have hf := getAccount_absent_facts pk ch fs hfile
      have hw : ch.write = .done := hall ch (List.mem_cons_self _ _)
      have h0 := getAccountRuns_present_counts pk rest _ (hf.2.2.2 hw)
      simp only [getAccountRuns, List.countP_cons, h0.1, h0.2.2]
      constructor <;> split <;> simp
    · have h0 := getAccountRuns_present_counts pk (ch :: rest) fs hfile
      rw [h0.1, h0.2.2]
      exact ⟨Nat.zero_le 1, Nat.zero_le 1⟩

/-- Every run that issues a write found the path absent. -/
theorem getAccountRuns_write_only_when_absent (pk : Derivation) (chs : List Chance) :
    ∀ fs, ∀ r ∈ getAccountRuns pk chs fs,
      r.issuedWrite filePath = true → r.foundAbsent filePath = true := by
  induction chs with
  | nil => intro fs r hr; simp [getAccountRuns] at hr
  | cons ch rest ih =>
    intro fs r hr hwr
    simp only [getAccountRuns, List.mem_cons] at hr
    rcases hr with rfl | hr
    · by_cases hfile : fs filePath = none
      · exact (getAccount_absent_facts pk ch fs hfile).2.1
      · rw [(getAccount_present_facts pk ch fs hfile).2.1] at hwr
        cases hwr
    · exact ih _ r hr hwr

end AlloyX

namespace AlloyX

/-- C4, as the code behaves: when the secret path is occupied, `getAccount()`
issues no write and leaves the whole disk unchanged, also in every later run;
in any sequence of runs a write is issued only by a run that finds the file
absent and at most one write completes without error; when no write fails, at
most one run finds the file absent and at most one run issues a write. -/
theorem secret_file_never_overwritten (pk : Derivation) :
    (∀ ch fs, fs filePath ≠ none →
      (getAccount pk ch fs).issuedWrite filePath = false ∧ (getAccount pk ch fs).fs = fs) ∧
    (∀ chs fs, fs filePath ≠ none → ∀ r ∈ getAccountRuns pk chs fs,
      r.issuedWrite filePath = false ∧ r.fs = fs) ∧
    (∀ chs fs, ∀ r ∈ getAccountRuns pk chs fs,
      r.issuedWrite filePath = true → r.foundAbsent filePath = true) ∧
    (∀ chs fs, (getAccountRuns pk chs fs).countP (fun r => r.wrote filePath) ≤ 1) ∧
    (∀ chs fs, (∀ ch ∈ chs, ch.write = .done) →
      (getAccountRuns pk chs fs).countP (fun r => r.issuedWrite filePath) ≤ 1 ∧
        (getAccountRuns pk chs fs).countP (fun r => r.foundAbsent filePath) ≤ 1) := by
  refine ⟨?_, ?_, ?_, ?_, ?_⟩
  · intro ch fs hfile
    have h := getAccount_present_facts pk ch fs hfile
    exact ⟨h.2.1, h.1⟩
  · intro chs fs hfile r hr
    have h := getAccountRuns_present pk chs fs hfile r hr
    exact ⟨h.2.1, h.1⟩
  · intro chs fs
    exact getAccountRuns_write_only_when_absent pk chs fs
  · intro chs fs
    exact getAccountRuns_wrote_le_one pk chs fs
  · intro chs fs hall
    exact getAccountRuns_no_failure pk chs fs hall

theorem secret_file_never_overwritten_witness :
    diskOf [(filePath, .file onesKey)] filePath ≠ none ∧
      (getAccount sampleDerivation luckyChance
        (diskOf [(filePath, .file onesKey)])).issuedWrite filePath = false ∧
      (getAccountRuns sampleDerivation [luckyChance, luckyChance] (diskOf [])).countP
        (fun r => r.issuedWrite filePath) ≤ 1 :=
  ⟨by decide,
    ((secret_file_never_overwritten sampleDerivation).1 luckyChance
      (diskOf [(filePath, .file onesKey)]) (by decide)).1,
    ((secret_file_never_overwritten sampleDerivation).2.2.2.2 [luckyChance, luckyChance]
      (diskOf []) (by decide)).1⟩

/-- C4 as stated fails: from an empty disk, a first run whose write is denied
and a second run whose write succeeds both find the file absent and both issue
a write; the write that lands is the one of the second run, not of the first
run that found the file absent. -/
theorem secret_file_written_by_later_run :
    (getAccountRuns sampleDerivation [deniedChance, luckyChance] (diskOf [])).map
        (fun r => r.foundAbsent filePath) = [true, true] ∧
      (getAccountRuns sampleDerivation [deniedChance, luckyChance] (diskOf [])).map
        (fun r => r.issuedWrite filePath) = [true, true] ∧
      (getAccountRuns sampleDerivation [deniedChance, luckyChance] (diskOf [])).map
        (fun r => r.wrote filePath) = [false, true] ∧
      ¬ (getAccountRuns sampleDerivation [deniedChance, luckyChance] (diskOf [])).countP
        (fun r => r.issuedWrite filePath) ≤ 1 := by
  decide

/-! ## `getEthAccount()` -/

/-- Secondary secret path occupied: the run in closed form. -/
theorem getEthAccountFrom_present (pk : Derivation) (ch : Chance) (s : Proc) (e : Entry)
    (hq : s.queue = []) (hc : s.crashed = none) (hfile : s.fs ethFilePath = some e) :
    getEthAccountFrom pk ch s =
      { fs := s.fs, promise := .fulfilled (readFile s.fs ethFilePath).2, queue := [],
        crashed := none,
        trace := s.trace ++ [.existsSync ethFilePath true, .issueRead ethFilePath,
          .readDone ethFilePath (readFile s.fs ethFilePath).1.isNone] } := by
  cases e <;>
  simp [getEthAccountFrom, getEthAccountExecutor, drain, complete, runCallback, readFile,
    resolve, Proc.emit, Proc.enqueue, Proc.newPromise, existsSync, hfile, hq, hc]

/-- Secondary secret path free: the run in closed form. -/
theorem getEthAccountFrom_absent (pk : Derivation) (ch : Chance) (s : Proc)
    (hq : s.queue = []) (hfile : s.fs ethFilePath = none) :
    getEthAccountFrom pk ch s =
      { fs := s.fs, promise := .pending, queue := [], crashed := s.crashed,
        trace := s.trace ++ [.existsSync ethFilePath false] } := by
  simp [getEthAccountFrom, getEthAccountExecutor, drain, Proc.emit, Proc.newPromise,
    existsSync, hfile, hq]

/-- C8, as the code behaves: the promise of `getEthAccount()` is settled
exactly when the secondary secret path exists.  When it is a readable file with
content `d` the promise is fulfilled with `d` itself; when it exists but cannot
be read, the read error is ignored and the promise is fulfilled with
`undefined`.  In every case no key is derived, no write is issued and the disk
is unchanged.  When the path is absent the promise is pending with no request
left, so `resolve` is never invoked. -/
theorem getEthAccount_settles_iff_file_exists (pk : Derivation) (ch : Chance)
    (fs : FileSystem) :
    ((getEthAccount pk ch fs).promise.settled = true ↔ existsSync fs ethFilePath = true) ∧
    (∀ d, fs ethFilePath = some (.file d) →
      (getEthAccount pk ch fs).promise = .fulfilled (.str d)) ∧
    (fs ethFilePath = some .other →
      (getEthAccount pk ch fs).promise = .fulfilled .undefined) ∧
    (∀ v, Event.derive v ∉ (getEthAccount pk ch fs).trace) ∧
    (∀ p data, Event.issueWrite p data ∉ (getEthAccount pk ch fs).trace) ∧
    (getEthAccount pk ch fs).fs = fs ∧
    (fs ethFilePath = none →
      (getEthAccount pk ch fs).promise = .pending ∧ (getEthAccount pk ch fs).queue = []) := by
  cases hfile : fs ethFilePath with
  | none =>
    have h : getEthAccount pk ch fs = _ :=
      getEthAccountFrom_absent pk ch (Proc.init fs) rfl hfile
    rw [h]
    simp [PromiseState.settled, existsSync, hfile, Proc.init]
  | some e =>
    have h : getEthAccount pk ch fs = _ :=
      getEthAccountFrom_present pk ch (Proc.init fs) e rfl rfl hfile
    rw [h]
    cases e <;> simp [PromiseState.settled, existsSync, hfile, Proc.init, readFile]

theorem getEthAccount_settles_iff_file_exists_witness :
    (getEthAccount sampleDerivation luckyChance
        (diskOf [(ethFilePath, .file "secret")])).promise = .fulfilled (.str "secret") ∧
      (getEthAccount sampleDerivation luckyChance
        (diskOf [(ethFilePath, .other)])).promise = .fulfilled .undefined ∧
      (getEthAccount sampleDerivation luckyChance (diskOf [])).promise = .pending ∧
      (getEthAccount sampleDerivation luckyChance (diskOf [])).queue = [] :=
  ⟨(getEthAccount_settles_iff_file_exists sampleDerivation luckyChance
      (diskOf [(ethFilePath, .file "secret")])).2.1 "secret" rfl,
    (getEthAccount_settles_iff_file_exists sampleDerivation luckyChance
      (diskOf [(ethFilePath, .other)])).2.2.1 rfl,
    (getEthAccount_settles_iff_file_exists sampleDerivation luckyChance
      (diskOf [])).2.2.2.2.2.2 rfl⟩

/-- C8 as stated fails: when `ethereum.secret` exists but cannot be read (a
directory, say), `fs.existsSync` finds it and the promise of `getEthAccount()`
settles, yet not with any text content: it is fulfilled with `undefined`. -/
theorem getEthAccount_unreadable_resolves_undefined :
    existsSync (diskOf [(ethFilePath, .other)]) ethFilePath = true ∧
      (getEthAccount sampleDerivation luckyChance
        (diskOf [(ethFilePath, .other)])).promise = .fulfilled .undefined ∧
      ¬ ∃ d, (getEthAccount sampleDerivation luckyChance
        (diskOf [(ethFilePath, .other)])).promise = .fulfilled (.str d) := by
  refine ⟨by decide, by decide, ?_⟩
  rintro ⟨d, h⟩
  have hp : (getEthAccount sampleDerivation luckyChance
      (diskOf [(ethFilePath, .other)])).promise = .fulfilled .undefined := by decide
  rw [hp] at h
  cases h

/-! ## `migrations/4_basic_token_vault.js` -/

/-- C9: the migration issues the deployment of BondToken first, without
arguments.  When that deployment lands at address `a`, it then issues the
deployment of TokenVault with the single constructor argument `a`, and nothing
else; when it fails, nothing further is issued. -/
theorem migration4_deploys_token_then_vault (net : Network) (d : Deployer) :
    (∀ a, net d.issued ⟨SimpleToken, []⟩ = .ok a →
      (migration4 net d).1.issued =
        d.issued ++ [⟨SimpleToken, []⟩, ⟨TokenReceiver, [a]⟩]) ∧
    (∀ e, net d.issued ⟨SimpleToken, []⟩ = .error e →
      (migration4 net d).1.issued = d.issued ++ [⟨SimpleToken, []⟩]) := by
  constructor
  · intro a h
    cases h2 : net (d.issued ++ [⟨SimpleToken, []⟩]) ⟨TokenReceiver, [a]⟩ <;>
    simp [migration4, Deployer.deploy, Deployer.deployed, h, h2]
  · intro e h
    simp [migration4, Deployer.deploy, h]

theorem migration4_deploys_token_then_vault_witness :
    (migration4 sampleNetwork Deployer.init).1.issued =
        [⟨"BondToken", []⟩, ⟨"TokenVault", ["BondToken@0"]⟩] ∧
      (migration4 deadNetwork Deployer.init).1.issued = [⟨"BondToken", []⟩] :=
  ⟨(migration4_deploys_token_then_vault sampleNetwork Deployer.init).1 "BondToken@0" rfl,
    (migration4_deploys_token_then_vault deadNetwork Deployer.init).2 "connection refused" rfl⟩

end AlloyX

namespace AlloyX

/-! ## `truffle-config.js` -/

/-- The promise and the disk a run of `getAccount()` ends with depend on the
disk it starts from only. -/
theorem getAccountFrom_promise_eq (pk : Derivation) (ch : Chance) (s : Proc)
    (hq : s.queue = []) (hc : s.crashed = none) :
    (getAccountFrom pk ch s).promise = (getAccount pk ch s.fs).promise := by
  cases hfile : s.fs filePath with
  | none =>
    rw [getAccountFrom_absent pk ch s hq hc hfile, getAccount,
      getAccountFrom_absent pk ch (Proc.init s.fs) rfl rfl hfile]
  | some e =>
    cases e with
    | file d =>
      cases hpk : pk (.str d) with
      | ok a =>
        rw [getAccountFrom_file_ok pk ch s d a hq hc hfile hpk, getAccount,
          getAccountFrom_file_ok pk ch (Proc.init s.fs) d a rfl rfl hfile hpk]
      | error err =>
        rw [getAccountFrom_file_error pk ch s d err hq hc hfile hpk, getAccount,
          getAccountFrom_file_error pk ch (Proc.init s.fs) d err rfl rfl hfile hpk]
    | other =>
      cases hpk : pk .undefined <;>
      simp [getAccount, getAccountFrom, getAccountExecutor, drain, complete, runCallback,
        readFile, resolve, Proc.emit, Proc.enqueue, Proc.newPromise, Proc.init, existsSync,
        hfile, hpk, hq, hc]

/-- When the `getAccount()` call made by `awaitWrapper` resolves with the
identity `a`, the private key of `a` is added to `kit` and to `prodKit`. -/
theorem awaitWrapper_adds_key (pk : Derivation) (ch : Chance) (m : Module) (a : Account)
    (hq : m.proc.queue = []) (hc : m.proc.crashed = none)
    (ha : (getAccountFrom pk ch m.proc).promise = .fulfilled (.account a)) :
    (awaitWrapper pk ch m).kit = m.kit ++ [.str a.privateKey] ∧
      (awaitWrapper pk ch m).prodKit = m.prodKit ++ [.str a.privateKey] ∧
      (awaitWrapper pk ch m).ethPrivateKey = m.ethPrivateKey := by
  cases hfile : m.proc.fs filePath with
  | none =>
    rw [getAccountFrom_absent pk ch m.proc hq hc hfile] at ha
    simp only [PromiseState.fulfilled.injEq, Value.account.injEq] at ha
    subst ha
    simp [awaitWrapper, awaitWrapperRest, getAccountExecutor, resolve, Proc.emit,
      Proc.enqueue, Proc.newPromise, existsSync, hfile, Value.getAddress,
      Value.getPrivateKey]
  | some e =>
    cases e with
    | file d =>
      cases hpk : pk (.str d) with
      | ok a' =>
        rw [getAccountFrom_file_ok pk ch m.proc d a' hq hc hfile hpk] at ha
        simp only [PromiseState.fulfilled.injEq, Value.account.injEq] at ha
        subst ha
        simp [awaitWrapper, awaitWrapperRest, getAccountExecutor, drain, complete,
          runCallback, readFile, resolve, Proc.emit, Proc.enqueue, Proc.newPromise,
          existsSync, hfile, hpk, hq, hc, Value.getAddress, Value.getPrivateKey]
      | error err =>
        rw [getAccountFrom_file_error pk ch m.proc d err hq hc hfile hpk] at ha
        cases ha
    | other =>
      cases hpk : pk .undefined with
      | ok a' =>
        have hp : (getAccountFrom pk ch m.proc).promise = .fulfilled (.account a') := by
          simp [getAccountFrom, getAccountExecutor, drain, complete, runCallback, readFile,
            resolve, Proc.emit, Proc.enqueue, Proc.newPromise, existsSync, hfile, hpk, hq, hc]
        rw [hp] at ha
        simp only [PromiseState.fulfilled.injEq, Value.account.injEq] at ha
        subst ha
        simp [awaitWrapper, awaitWrapperRest, getAccountExecutor, drain, complete,
          runCallback, readFile, resolve, Proc.emit, Proc.enqueue, Proc.newPromise,
          existsSync, hfile, hpk, hq, hc, Value.getAddress, Value.getPrivateKey]
      | error err =>
        have hp : (getAccountFrom pk ch m.proc).promise = .pending := by
          simp [getAccountFrom, getAccountExecutor, drain, complete, runCallback, readFile,
            resolve, Proc.emit, Proc.enqueue, Proc.newPromise, existsSync, hfile, hpk, hq, hc]
        rw [hp] at ha
        cases ha

/-- With the secondary secret file absent, `start()` stops at its first
`await`: the module is as at load time but for the one existence check. -/
theorem start_absent (pk : Derivation) (ch : Chance) (fs : FileSystem)
    (habs : fs ethFilePath = none) :
    start pk ch (Module.init fs) =
      { proc := { fs := fs, promise := .pending, queue := [], crashed := none,
                  trace := [.existsSync ethFilePath false] },
        ethPrivateKey := .undefined, kit := [], prodKit := [] } := by
  have h := getEthAccountFrom_absent pk ch (Proc.init fs) rfl habs
  simp only [start, Module.init, h]
  rfl

/-- With the secondary secret path occupied, `start()` goes on to
`awaitWrapper` with `ethPrivateKey` set to what was read. -/
theorem start_present (pk : Derivation) (ch : Chance) (fs : FileSystem) (e : Entry)
    (hfile : fs ethFilePath = some e) :
    start pk ch (Module.init fs) =
      awaitWrapper pk ch
        { proc := { fs := fs, promise := .fulfilled (readFile fs ethFilePath).2, queue := [],
                    crashed := none,
                    trace := [.existsSync ethFilePath true, .issueRead ethFilePath,
                      .readDone ethFilePath (readFile fs ethFilePath).1.isNone] },
          ethPrivateKey := (readFile fs ethFilePath).2, kit := [], prodKit := [] } := by
  have h := getEthAccountFrom_present pk ch (Proc.init fs) e rfl rfl hfile
  simp only [start, Module.init, h]
  rfl

/-- An element of a list that is not among its first elements `front` has all
of `front` before it. -/
theorem mem_before_of_not_mem_front {α : Type} (front rest pre post : List α) (e x : α)
    (h : front ++ rest = pre ++ e :: post) (he : e ∉ front) (hx : x ∈ front) : x ∈ pre := by
  induction front generalizing pre with
  | nil => cases hx
  | cons y ys ih =>
    cases pre with
    | nil =>
      simp only [List.cons_append, List.nil_append, List.cons.injEq] at h
      exact absurd (h.1 ▸ List.mem_cons_self y ys) he
    | cons z zs =>
      simp only [List.cons_append, List.cons.injEq] at h
      rcases List.mem_cons.mp hx with rfl | hx
      · rw [h.1]
        exact List.mem_cons_self _ _
      · exact List.mem_cons_of_mem _
          (ih zs h.2 (fun hmem => he (List.mem_cons_of_mem _ hmem)) hx)

/-- The function `awaitWrapper` only adds events after those already in the
trace. -/
theorem awaitWrapper_trace_extends (pk : Derivation) (ch : Chance) (m : Module)
    (hq : m.proc.queue = []) (hc : m.proc.crashed = none) :
    ∃ rest, (awaitWrapper pk ch m).proc.trace = m.proc.trace ++ rest := by
  cases hfile : m.proc.fs filePath with
  | none =>
    cases hw : ch.write with
    | done =>
      simp [awaitWrapper, awaitWrapperRest, getAccountExecutor, drain, complete, runCallback,
        writeFile, resolve, Proc.emit, Proc.enqueue, Proc.newPromise, existsSync, hfile, hw,
        hq, hc, Value.getAddress, Value.getPrivateKey]
    | failed err lo =>
      cases lo <;>
      simp [awaitWrapper, awaitWrapperRest, getAccountExecutor, drain, complete, runCallback,
        writeFile, resolve, Proc.emit, Proc.enqueue, Proc.newPromise, existsSync, hfile, hw,
        hq, hc, Value.getAddress, Value.getPrivateKey]
  | some e =>
    cases e with
    | file d =>
      cases hpk : pk (.str d) <;>
      simp [awaitWrapper, awaitWrapperRest, getAccountExecutor, drain, complete, runCallback,
        readFile, resolve, Proc.emit, Proc.enqueue, Proc.newPromise, existsSync, hfile, hpk,
        hq, hc, Value.getAddress, Value.getPrivateKey]
    | other =>
      cases hpk : pk .undefined <;>
      simp [awaitWrapper, awaitWrapperRest, getAccountExecutor, drain, complete, runCallback,
        readFile, resolve, Proc.emit, Proc.enqueue, Proc.newPromise, existsSync, hfile, hpk,
        hq, hc, Value.getAddress, Value.getPrivateKey]

/-- C10: in `start()`, `getAccount()` is reached only after the promise of
`getEthAccount()` has settled.  On the trace of `start()`: every event of
`awaitWrapper` (an access to the primary secret path, the generation or
derivation of an identity, a log, the addition of a key to a kit) has before it
the existence check that found `ethereum.secret` and the completion of its
read; the trace begins with the whole run of `getEthAccount()`, which holds no
such event, and goes on only if that promise is settled.  When the secondary
secret file is absent, `awaitWrapper` never runs: the primary secret path is
never checked, read or written, no identity is generated, the disk is unchanged
and no account is added to either kit.  When the secondary file is present and
`getAccount()` returns the identity `a`, the private key of `a` is what is
added to `kit` and to `prodKit`. -/
theorem start_reaches_getAccount_after_getEthAccount (pk : Derivation) (ch : Chance)
    (fs : FileSystem) :
    (∀ pre e post, (start pk ch (Module.init fs)).proc.trace = pre ++ e :: post →
      e.ofAwaitWrapper = true →
      Event.existsSync ethFilePath true ∈ pre ∧ ∃ ok, Event.readDone ethFilePath ok ∈ pre) ∧
    (∃ rest, (start pk ch (Module.init fs)).proc.trace =
        (getEthAccount pk ch fs).trace ++ rest ∧
      (∀ e ∈ (getEthAccount pk ch fs).trace, e.ofAwaitWrapper = false) ∧
      ((getEthAccount pk ch fs).promise.settled = false → rest = [])) ∧
    (fs ethFilePath = none →
      (start pk ch (Module.init fs)).proc.touched filePath = false ∧
      (∀ r, Event.create r ∉ (start pk ch (Module.init fs)).proc.trace) ∧
      (∀ k key, Event.addAccount k key ∉ (start pk ch (Module.init fs)).proc.trace) ∧
      (start pk ch (Module.init fs)).proc.fs = fs ∧
      (start pk ch (Module.init fs)).kit = [] ∧
      (start pk ch (Module.init fs)).prodKit = []) ∧
    (fs ethFilePath ≠ none → ∀ a,
      (getAccount pk ch fs).promise = .fulfilled (.account a) →
      (start pk ch (Module.init fs)).kit = [.str a.privateKey] ∧
      (start pk ch (Module.init fs)).prodKit = [.str a.privateKey]) := by
  have hne : ethFilePath ≠ filePath := by decide
  refine ⟨?_, ?_, ?_, ?_⟩
  · intro pre e post htr he
    cases hfile : fs ethFilePath with
    | none =>
      rw [start_absent pk ch fs hfile] at htr
      have hmem : e ∈ [Event.existsSync ethFilePath false] := by
        rw [show [Event.existsSync ethFilePath false] = pre ++ e :: post from htr]
        simp
      rw [List.mem_singleton] at hmem
      subst hmem
      simp [Event.ofAwaitWrapper, Event.onPath, hne] at he
    | some en =>
      rw [start_present pk ch fs en hfile] at htr
      obtain ⟨rest, hrest⟩ := awaitWrapper_trace_extends pk ch
        { proc := { fs := fs, promise := .fulfilled (readFile fs ethFilePath).2, queue := [],
                    crashed := none,
                    trace := [.existsSync ethFilePath true, .issueRead ethFilePath,
                      .readDone ethFilePath (readFile fs ethFilePath).1.isNone] },
          ethPrivateKey := (readFile fs ethFilePath).2, kit := [], prodKit := [] } rfl rfl
      rw [hrest] at htr
      have hnot : e ∉ [Event.existsSync ethFilePath true, Event.issueRead ethFilePath,
          Event.readDone ethFilePath (readFile fs ethFilePath).1.isNone] := by
        intro hmem
        simp only [List.mem_cons, List.mem_singleton, List.not_mem_nil, or_false] at hmem
        rcases hmem with rfl | rfl | rfl <;>
        simp [Event.ofAwaitWrapper, Event.onPath, hne] at he
      exact ⟨mem_before_of_not_mem_front _ rest pre post e _ htr hnot (by simp),
        (readFile fs ethFilePath).1.isNone,
        mem_before_of_not_mem_front _ rest pre post e _ htr hnot (by simp)⟩
  · cases hfile : fs ethFilePath with
    | none =>
      have h : getEthAccount pk ch fs = _ :=
        getEthAccountFrom_absent pk ch (Proc.init fs) rfl hfile
      rw [start_absent pk ch fs hfile, h]
      refine ⟨[], by simp [Proc.init], ?_, fun _ => rfl⟩
      intro e hmem
      simp only [Proc.init, List.nil_append, List.mem_singleton] at hmem
      subst hmem
      simp [Event.ofAwaitWrapper, Event.onPath, hne]
    | some en =>
      have h : getEthAccount pk ch fs = _ :=
        getEthAccountFrom_present pk ch (Proc.init fs) en rfl rfl hfile
      obtain ⟨rest, hrest⟩ := awaitWrapper_trace_extends pk ch
        { proc := { fs := fs, promise := .fulfilled (readFile fs ethFilePath).2, queue := [],
                    crashed := none,
                    trace := [.existsSync ethFilePath true, .issueRead ethFilePath,
                      .readDone ethFilePath (readFile fs ethFilePath).1.isNone] },
          ethPrivateKey := (readFile fs ethFilePath).2, kit := [], prodKit := [] } rfl rfl
      rw [start_present pk ch fs en hfile, h, hrest]
      refine ⟨rest, by simp [Proc.init], ?_, ?_⟩
      · intro e hmem
        simp only [Proc.init, List.nil_append, List.mem_cons, List.mem_singleton,
          List.not_mem_nil, or_false] at hmem
        rcases hmem with rfl | rfl | rfl <;>
        simp [Event.ofAwaitWrapper, Event.onPath, hne]
      · intro hs
        simp [PromiseState.settled] at hs
  · intro habs
    rw [start_absent pk ch fs habs]
    simp [Proc.touched, hne]
  · intro hfile a ha
    obtain ⟨e, he⟩ := Option.ne_none_iff_exists'.mp hfile
    rw [start_present pk ch fs e he]
    have hp := getAccountFrom_promise_eq pk ch
      { fs := fs, promise := .fulfilled (readFile fs ethFilePath).2, queue := [],
        crashed := none,
        trace := [.existsSync ethFilePath true, .issueRead ethFilePath,
          .readDone ethFilePath (readFile fs ethFilePath).1.isNone] } rfl rfl
    have hk := awaitWrapper_adds_key pk ch
      { proc := { fs := fs, promise := .fulfilled (readFile fs ethFilePath).2, queue := [],
                  crashed := none,
                  trace := [.existsSync ethFilePath true, .issueRead ethFilePath,
                    .readDone ethFilePath (readFile fs ethFilePath).1.isNone] },
        ethPrivateKey := (readFile fs ethFilePath).2, kit := [], prodKit := [] } a rfl rfl
      (hp.trans ha)
    exact ⟨hk.1, hk.2.1⟩

theorem start_reaches_getAccount_after_getEthAccount_witness :
    (start sampleDerivation luckyChance (Module.init (diskOf []))).proc.touched filePath =
        false ∧
      (start sampleDerivation luckyChance (Module.init (diskOf []))).kit = [] ∧
      (start sampleDerivation luckyChance
        (Module.init (diskOf [(ethFilePath, .file "secret")]))).kit = [.str onesKey] ∧
      (start sampleDerivation luckyChance
        (Module.init (diskOf [(ethFilePath, .file "secret")]))).prodKit = [.str onesKey] ∧
      (Event.existsSync ethFilePath true ∈
          [Event.existsSync ethFilePath true, Event.issueRead ethFilePath,
            Event.readDone ethFilePath true] ∧
        ∃ ok, Event.readDone ethFilePath ok ∈
          [Event.existsSync ethFilePath true, Event.issueRead ethFilePath,
            Event.readDone ethFilePath true]) :=
  have h0 := (start_reaches_getAccount_after_getEthAccount sampleDerivation luckyChance
    (diskOf [])).2.2.1 rfl
  have h1 := (start_reaches_getAccount_after_getEthAccount sampleDerivation luckyChance
    (diskOf [(ethFilePath, .file "secret")])).2.2.2 (by decide) onesAccount
    (by decide)
  have h2 := (start_reaches_getAccount_after_getEthAccount sampleDerivation luckyChance
    (diskOf [(ethFilePath, .file "secret")])).1
    [Event.existsSync ethFilePath true, Event.issueRead ethFilePath,
      Event.readDone ethFilePath true]
    (Event.existsSync filePath false)
    [Event.create onesAccount, Event.issueWrite filePath onesKey,
      Event.log ("Celo Account address: " ++ onesAccount.address),
      Event.addAccount .kit (.str onesKey), Event.addAccount .prodKit (.str onesKey),
      Event.writeDone filePath true]
    (by decide) (by decide)
  ⟨h0.1, h0.2.2.2.2.1, h1.1, h1.2, h2⟩

end AlloyX
